import Mathlib

/-!
Verification development for the Rmimic repository.

The repository's only C++ source file under version control here is
`src/rcpp_exports.cpp`, the Rcpp wrapper `rcpp_mimic_fasta` that builds a
command-line argument vector, hands it to the mimic-generation engine
(`Peptides`), and converts the engine's outcome into either a logical `TRUE`
or an R error raised through `Rcpp::stop`.

The engine itself (`Peptides.cpp`, `AminoAcidDist`, `Option`) is not part of
the source tree, so its pipeline (FASTA parsing, composition modelling,
constrained shuffling, serialization) is modelled from the specification;
every such definition carries a doc comment starting `Modelled from the
spec:`.  The wrapper, in contrast, is embedded faithfully from
`src/rcpp_exports.cpp`.
-/

/-- Modelled from the spec: a FASTA protein record (`ProteinRecord` of
section 3), `{ id, description, sequence }`, the sequence an ordered list of
amino-acid symbols. -/
structure ProteinRecord where
  id : String
  description : String
  sequence : List Char
deriving DecidableEq, Repr

/-- Modelled from the spec: the validated `Configuration` object of
section 3.  `prefName` models the spec's `namePrefix` field.  The
`sharedRatio` is a rational number standing for the real-valued ratio in
`[0,1]`. -/
structure Config where
  minLength : Nat
  numShuffles : Nat
  replaceI : Bool
  seed : Nat
  prefName : String
  sharedRatio : Rat
  prependOriginal : Bool
  inferFrequency : Bool
  verbose : Bool
deriving DecidableEq, Repr

/-- Modelled from the spec: residue normalization (section 4.4 step 1) —
every occurrence of isoleucine `I` is rewritten to leucine `L`. -/
def normalizeIL (s : List Char) : List Char :=
  s.map (fun c => if c = 'I' then 'L' else c)

/-- Modelled from the spec: the working copy of a sequence handed to the
generator — I/L-normalized when `replaceI` is set, the sequence itself
otherwise (section 4.4 step 1). -/
def workingCopy (cfg : Config) (s : List Char) : List Char :=
  if cfg.replaceI then normalizeIL s else s

/-- Modelled from the spec: a deterministic random stream
(`DeterministicRandomSource`, section 4.3), realised as a 64-bit linear
congruential generator state. -/
structure RandomStream where
  state : Nat
deriving DecidableEq, Repr

/-- Advance the stream one step (64-bit LCG). -/
def RandomStream.next (rs : RandomStream) : Nat × RandomStream :=
  let s := (6364136223846793005 * rs.state + 1442695040888963407) % (2 ^ 64)
  (s, ⟨s⟩)

/-- Modelled from the spec: `uniformIndex(n)` — an integer in `[0, n)`
drawn from the stream (section 4.3). -/
def RandomStream.uniformIndex (rs : RandomStream) (n : Nat) : Nat × RandomStream :=
  let p := rs.next
  (p.1 % n, p.2)

/-- Modelled from the spec: `deriveStream(globalSeed, sequenceIndex,
shuffleIndex)` — a distinct reproducible stream per (sequence, shuffle)
pair (section 4.3). -/
def deriveStream (globalSeed seqIndex shuffleIndex : Nat) : RandomStream :=
  ⟨(globalSeed * 1000003 + seqIndex * 10007 + shuffleIndex * 101 + 1) % (2 ^ 64)⟩

/-- Modelled from the spec: the seed actually used for a run — `seed` when
nonzero, otherwise one fresh draw of system entropy (section 4.3), passed
in explicitly here as `entropy`. -/
def effectiveSeed (cfg : Config) (entropy : Nat) : Nat :=
  if cfg.seed = 0 then entropy else cfg.seed

/-- Modelled from the spec: `CompositionModel.buildGlobal` (section 4.2) —
counts every amino-acid symbol occurrence; represented as the list of
(symbol, count) pairs over the distinct symbols, ties broken by first
occurrence. -/
def buildGlobal (chars : List Char) : List (Char × Nat) :=
  chars.dedup.map (fun c => (c, chars.count c))

/-- Total weight of a composition model. -/
def totalWeight (m : List (Char × Nat)) : Nat :=
  (m.map Prod.snd).sum

/-- Walk the cumulative weights of a composition model and pick the symbol
whose bucket contains `k`; `none` when `k` is at least the total weight. -/
def pickWeighted : List (Char × Nat) → Nat → Option Char
  | [], _ => none
  | p :: rest, k => if k < p.2 then some p.1 else pickWeighted rest (k - p.2)

/-- Remove the element at index `j` from a list. -/
def removeNth (l : List Char) (j : Nat) : List Char :=
  l.take j ++ l.drop (j + 1)

/-- Modelled from the spec: Fisher–Yates shuffle driven by `uniformIndex`
(section 4.4 step 3, exact-permutation variant); fuel-indexed recursion,
the fuel instantiated with the list length. -/
def fisherYatesAux : Nat → RandomStream → List Char → List Char × RandomStream
  | 0, rs, _ => ([], rs)
  | _ + 1, rs, [] => ([], rs)
  | f + 1, rs, c :: cs =>
    let p := rs.uniformIndex (cs.length + 1)
    let q := fisherYatesAux f p.2 (removeNth (c :: cs) p.1)
    ((c :: cs).getD p.1 c :: q.1, q.2)

/-- Fisher–Yates shuffle of a whole list. -/
def fisherYates (rs : RandomStream) (l : List Char) : List Char × RandomStream :=
  fisherYatesAux l.length rs l

/-- Modelled from the spec: frequency-sampling variant of the shuffle
(section 4.4 step 3) — each position is drawn independently from the
composition model; a draw that misses the table keeps the original
residue of that position. -/
def sampleAll (model : List (Char × Nat)) : RandomStream → List Char → List Char × RandomStream
  | rs, [] => ([], rs)
  | rs, c :: cs =>
    let p := rs.uniformIndex (totalWeight model)
    let q := sampleAll model p.2 cs
    ((pickWeighted model p.1).getD c :: q.1, q.2)

/-- Modelled from the spec: redistribution of the residues outside the
shared window (section 4.4 step 3) — composition sampling when
`inferFrequency` is set, Fisher–Yates permutation otherwise. -/
def shuffleOutside (cfg : Config) (model : List (Char × Nat)) (rs : RandomStream)
    (outside : List Char) : List Char :=
  if cfg.inferFrequency then (sampleAll model rs outside).1 else (fisherYates rs outside).1

/-- Modelled from the spec: steps 2–4 of `MimicGenerator.produce` for an
already chosen window start `s` and window length `w` (section 4.4) — the
window `[s, s+w)` is copied verbatim, the residues outside it are
redistributed, and the parts are assembled into one sequence. -/
def produceAt (src : List Char) (model : List (Char × Nat)) (rs1 : RandomStream)
    (cfg : Config) (s w : Nat) : List Char :=
  let shuffled := shuffleOutside cfg model rs1 (src.take s ++ src.drop (s + w))
  shuffled.take s ++ (src.drop s).take w ++ shuffled.drop s

/-- Modelled from the spec: `MimicGenerator.produce` (section 4.4) — one
mimic sequence from one working-copy sequence: choose the shared window
(`windowLength = round(sharedRatio * length)`, uniform start via
`uniformIndex`) when `sharedRatio > 0`, then copy it verbatim and
redistribute the residues outside it. -/
def produce (src : List Char) (model : List (Char × Nat)) (rs : RandomStream)
    (cfg : Config) : List Char :=
  let n := src.length
  let w := if 0 < cfg.sharedRatio then (round (cfg.sharedRatio * (n : Rat))).toNat else 0
  let sp := if 0 < cfg.sharedRatio then rs.uniformIndex (n - w + 1) else (0, rs)
  produceAt src model sp.2 cfg sp.1 w

/-- Modelled from the spec: header of a prepended original,
`namePrefix|runningIndex_originalId` (sections 4.5 and 6). -/
def origHeader (pref : String) (idx : Nat) (origId : String) : String :=
  pref ++ "|" ++ toString idx ++ "_" ++ origId

/-- Modelled from the spec: header of a mimic,
`namePrefix|runningIndex_shuffleIndex_originalId` (sections 4.5 and 6). -/
def mimicHeader (pref : String) (idx shuffleIdx : Nat) (origId : String) : String :=
  pref ++ "|" ++ toString idx ++ "_" ++ toString shuffleIdx ++ "_" ++ origId

/-- Modelled from the spec: the prepended original record for a retained
input record (section 4.5 step 4) — I/L-normalized working copy under the
original-record header. -/
def origRecordOf (cfg : Config) (idx : Nat) (r : ProteinRecord) : ProteinRecord :=
  ⟨origHeader cfg.prefName idx r.id, "", workingCopy cfg r.sequence⟩

/-- Modelled from the spec: the mimic record generated for retained record
`r` at running index `idx` and shuffle index `k` (sections 4.4 and 4.5),
using the stream derived for that (sequence, shuffle) pair. -/
def mimicOf (cfg : Config) (model : List (Char × Nat)) (gseed idx k : Nat)
    (r : ProteinRecord) : ProteinRecord :=
  ⟨mimicHeader cfg.prefName idx k r.id, "",
    produce (workingCopy cfg r.sequence) model (deriveStream gseed idx k) cfg⟩

/-- Modelled from the spec: the output records contributed by one retained
input record — the optional prepended original followed by `numShuffles`
mimics (section 4.5 step 4). -/
def recordsFor (cfg : Config) (model : List (Char × Nat)) (gseed idx : Nat)
    (r : ProteinRecord) : List ProteinRecord :=
  (if cfg.prependOriginal then [origRecordOf cfg idx r] else []) ++
    (List.range cfg.numShuffles).map (fun k => mimicOf cfg model gseed idx k r)

/-- Modelled from the spec: the length filter of the orchestrator
(section 4.5 step 2) — drop records with `sequence.length < minLength`. -/
def retainedOf (cfg : Config) (records : List ProteinRecord) : List ProteinRecord :=
  records.filter (fun r => decide (cfg.minLength ≤ r.sequence.length))

/-- Modelled from the spec: the global composition model of a run
(section 4.5 step 3), built over the retained records' working copies (so
that I/L normalization is respected by sampled draws, as section 8's I/L
property requires). -/
def modelOf (cfg : Config) (records : List ProteinRecord) : List (Char × Nat) :=
  buildGlobal (List.flatten ((retainedOf cfg records).map (fun r => workingCopy cfg r.sequence)))

/-- Modelled from the spec: the `RunOrchestrator` pipeline on parsed
records (section 4.5) — filter by `minLength`, build the global composition
model, then emit the output records in input order. -/
def runEngine (cfg : Config) (records : List ProteinRecord) (entropy : Nat) :
    List ProteinRecord :=
  ((retainedOf cfg records).enum.map
    (fun p => recordsFor cfg (modelOf cfg records) (effectiveSeed cfg entropy) p.1 p.2)).flatten

/-- Split a character stream into lines at newline characters;
`acc` holds the current line, reversed. -/
def splitLinesAux : List Char → List Char → List (List Char)
  | [], acc => [acc.reverse]
  | c :: cs, acc =>
    if c = '\n' then acc.reverse :: splitLinesAux cs [] else splitLinesAux cs (c :: acc)

/-- The lines of a file's contents. -/
def splitLines (content : String) : List (List Char) :=
  splitLinesAux content.toList []

/-- Modelled from the spec: FASTA parsing of a line list (section 4.1) —
a `>` header starts a record (id up to the first blank run, the rest the
description); sequence lines are concatenated; a record with an empty
sequence, or sequence text before any header, is a `ParseError`. -/
def parseLinesAux : List (List Char) → Option (String × String × List Char) →
    Except String (List ProteinRecord)
  | [], none => .ok []
  | [], some (i, d, s) =>
    if s = [] then .error "ParseError" else .ok [⟨i, d, s⟩]
  | line :: rest, cur =>
    match line with
    | '>' :: body =>
      let idStr := String.mk (body.takeWhile (fun c => c ≠ ' '))
      let desc := String.mk ((body.dropWhile (fun c => c ≠ ' ')).dropWhile (fun c => c = ' '))
      (match cur with
        | none => parseLinesAux rest (some (idStr, desc, []))
        | some (i, d, s) =>
          if s = [] then .error "ParseError"
          else
            match parseLinesAux rest (some (idStr, desc, [])) with
            | .error e => .error e
            | .ok rs => .ok (⟨i, d, s⟩ :: rs))
    | _ =>
      match cur with
      | none => if line = [] then parseLinesAux rest none else .error "ParseError"
      | some (i, d, s) => parseLinesAux rest (some (i, d, s ++ line))

/-- Modelled from the spec: `FastaIO.read` on file contents (sections 4.1
and 4.5) — parse all lines; an empty record set is itself a `ParseError`. -/
def parseFasta (content : String) : Except String (List ProteinRecord) :=
  match parseLinesAux (splitLines content) none with
  | .error e => .error e
  | .ok [] => .error "ParseError"
  | .ok rs => .ok rs

/-- Split a sequence into chunks of width `w`; fuel-indexed, the fuel
instantiated with the sequence length. -/
def chunksAux (w : Nat) : Nat → List Char → List (List Char)
  | 0, _ => []
  | f + 1, l => if l = [] then [] else l.take w :: chunksAux w f (l.drop w)

/-- Modelled from the spec: serialization of one record (section 4.1) —
`>` header line, then the sequence wrapped at a fixed width of 60. -/
def serializeRecord (r : ProteinRecord) : String :=
  ">" ++ r.id ++ (if r.description = "" then "" else " " ++ r.description) ++ "\n" ++
    String.join ((chunksAux 60 r.sequence.length r.sequence).map (fun c => String.mk c ++ "\n"))

/-- Modelled from the spec: `FastaIO.write` rendered as the output file's
contents (section 4.1) — every record in argument order. -/
def serializeFasta (records : List ProteinRecord) : String :=
  String.join (records.map serializeRecord)

/-- Modelled from the spec: the whole engine run (`Peptides::run`, absent
from src/) as a function from file contents, configuration and the one
entropy draw to either the output file's contents or a failure message. -/
def runFull (cfg : Config) (content : String) (entropy : Nat) : Except String String :=
  match parseFasta content with
  | .error e => .error e
  | .ok recs => .ok (serializeFasta (runEngine cfg recs entropy))

/-- Modelled from the spec: the number of records the run writes. -/
def recordsWrittenModel (cfg : Config) (content : String) (entropy : Nat) : Nat :=
  match parseFasta content with
  | .ok recs => (runEngine cfg recs entropy).length
  | .error _ => 0

/-- Outcome of the `peptides.run()` call as seen by the wrapper
(`src/rcpp_exports.cpp` line 77): a returned integer code, a thrown
`std::exception` with its `what()` message, or a thrown non-standard
exception. -/
inductive EngineOutcome where
  | ret : Int → EngineOutcome
  | throwStd : String → EngineOutcome
  | throwUnknown : EngineOutcome
deriving DecidableEq, Repr

/-- The environment of one `rcpp_mimic_fasta` call
(`src/rcpp_exports.cpp`): whether `peptides.parseOptions` succeeds, what
`peptides.run()` does, and whether the output file at `outputPath` exists
and is non-empty afterwards (the `ifstream` check of lines 82–83). -/
structure CallEnv where
  parseOptionsOk : Bool
  engine : EngineOutcome
  outputNonEmpty : Bool
  outputPath : String
deriving DecidableEq, Repr

/-- Outcome of the `try` block of `rcpp_mimic_fasta`
(`src/rcpp_exports.cpp` lines 26–92): a normal return, or a thrown
`std::exception` (every `Rcpp::stop` inside the block throws an
`Rcpp::exception`, which derives from `std::exception`), or an unknown
exception propagated from the engine. -/
inductive TryOutcome where
  | done : Bool → TryOutcome
  | stdExc : String → TryOutcome
  | unknownExc : TryOutcome
deriving DecidableEq, Repr

/-- The `try` block of `rcpp_mimic_fasta`, embedded from
`src/rcpp_exports.cpp` lines 26–92: option-parse failure stops (line 74);
`run()` returning 0 with a non-empty output file returns `true` (line 84);
0 with a missing/empty output file stops (line 87); a nonzero code stops
(line 91); exceptions from `run()` propagate. -/
def tryBlock (env : CallEnv) : TryOutcome :=
  if env.parseOptionsOk = false then
    .stdExc "Failed to parse options for peptide generation."
  else
    match env.engine with
    | .ret code =>
      if code = 0 then
        if env.outputNonEmpty then .done true
        else .stdExc ("Peptide generation reported success, but output file is missing or empty: "
          ++ env.outputPath)
      else .stdExc ("Peptide generation run failed with code: " ++ toString code)
    | .throwStd msg => .stdExc msg
    | .throwUnknown => .unknownExc

/-- `rcpp_mimic_fasta` embedded from `src/rcpp_exports.cpp` lines 26–99:
the try block's normal value is returned; a `std::exception` is caught at
line 94 and re-raised via `Rcpp::stop` with the wrapping prefix; anything
else is caught at line 96.  The value surfaced to R is either the logical
vector (`Except.ok`) or the error raised by `Rcpp::stop` (`Except.error`);
the trailing `return false` of line 99 is behind both and has no
counterpart here because `Rcpp::stop` never returns. -/
def rcpp_mimic_fasta (env : CallEnv) : Except String Bool :=
  match tryBlock env with
  | .done b => .ok b
  | .stdExc msg => .error ("Exception in rcpp_mimic_fasta: " ++ msg)
  | .unknownExc => .error "Unknown C++ exception in rcpp_mimic_fasta."

/-- The failure message `rcpp_mimic_fasta` surfaces for a failing engine
outcome (`src/rcpp_exports.cpp` lines 89–98): the inner `Rcpp::stop`
message for a nonzero result code is itself caught at line 94 and wrapped,
a `std::exception` is wrapped directly, and an unknown exception gets the
fixed line-97 text. -/
def failureMessage : EngineOutcome → String
  | .ret c => "Exception in rcpp_mimic_fasta: " ++ ("Peptide generation run failed with code: " ++ toString c)
  | .throwStd m => "Exception in rcpp_mimic_fasta: " ++ m
  | .throwUnknown => "Unknown C++ exception in rcpp_mimic_fasta."

/-- An engine outcome that counts as a failed generation: a nonzero result
code or any thrown exception. -/
def engineFailed : EngineOutcome → Prop
  | .ret c => c ≠ 0
  | .throwStd _ => True
  | .throwUnknown => True

/-- The engine outcome `peptides.run()` has under the spec-modelled engine:
result code 0 when the modelled run succeeds, a nonzero code otherwise. -/
def engineOutcomeOf (cfg : Config) (content : String) (entropy : Nat) : EngineOutcome :=
  match runFull cfg content entropy with
  | .ok _ => .ret 0
  | .error _ => .ret 1

/-- Whether the output file is non-empty after the spec-modelled engine
run: the serialized output when the run succeeds, nothing otherwise. -/
def outputNonEmptyOf (cfg : Config) (content : String) (entropy : Nat) : Bool :=
  match runFull cfg content entropy with
  | .ok out => decide (out ≠ "")
  | .error _ => false

/-- One `rcpp_mimic_fasta` call (embedded from `src/rcpp_exports.cpp`)
running on top of the spec-modelled engine: options parse successfully and
the engine behaves as `runFull` says. -/
def callWithEngine (cfg : Config) (content : String) (entropy : Nat)
    (outPath : String) : Except String Bool :=
  rcpp_mimic_fasta
    ⟨true, engineOutcomeOf cfg content entropy, outputNonEmptyOf cfg content entropy, outPath⟩

/-- Decimal rendering of a rational with six digits after the point,
modelling C++ `std::to_string(double)` (`%f` formatting) used at
`src/rcpp_exports.cpp` line 53. -/
def cppToStringDouble (q : Rat) : String :=
  let n : Int := round (q * 1000000)
  let a := n.natAbs
  let fpStr := toString (a % 1000000)
  (if n < 0 then "-" else "") ++ toString (a / 1000000) ++ "." ++
    String.mk (List.replicate (6 - fpStr.length) '0') ++ fpStr

/-- The argument vector `rcpp_mimic_fasta` builds for the engine, embedded
from `src/rcpp_exports.cpp` lines 13–70 with the same defaulted parameters
as the C++ signature (`protein_name_pref` models `protein_name_prefix`). -/
def buildArgs (input_fasta_path output_fasta_path : String)
    (min_len : Nat := 0) (num_shuffles : Nat := 1) (replace_i : Bool := false)
    (seed : Nat := 0) (protein_name_pref : String := "mimic|Random")
    (shared_peptide_ratio : Rat := 0.0) (prepend_original : Bool := false)
    (infer_aa_frequency : Bool := true) (verbose : Bool := false) : List String :=
  ["mimicR_exec", input_fasta_path, "-o", output_fasta_path,
    "-l", toString min_len, "-m", toString num_shuffles] ++
  (if replace_i then ["-I"] else []) ++
  ["-s", toString seed, "-p", protein_name_pref,
    "-q", cppToStringDouble shared_peptide_ratio] ++
  (if prepend_original then ["-P"] else []) ++
  (if infer_aa_frequency then ["-A"] else []) ++
  (if verbose then ["-v"] else [])

/-- Decidable equality for wrapper results, so that concrete calls can be
checked by `decide`. -/
instance {ε α : Type} [DecidableEq ε] [DecidableEq α] : DecidableEq (Except ε α) :=
  fun x y =>
    match x, y with
    | .ok a, .ok b =>
      if h : a = b then isTrue (by rw [h]) else isFalse (fun hh => by cases hh; exact h rfl)
    | .error e, .error f =>
      if h : e = f then isTrue (by rw [h]) else isFalse (fun hh => by cases hh; exact h rfl)
    | .ok _, .error _ => isFalse (fun hh => by cases hh)
    | .error _, .ok _ => isFalse (fun hh => by cases hh)


/-! ## Helper lemmas -/

theorem uniformIndex_fst_lt (rs : RandomStream) (n : Nat) (h : 0 < n) :
    (rs.uniformIndex n).1 < n := by
  simp only [RandomStream.uniformIndex]
  exact Nat.mod_lt _ h

theorem removeNth_length (l : List Char) (j : Nat) (h : j < l.length) :
    (removeNth l j).length = l.length - 1 := by
  simp only [removeNth, List.length_append, List.length_take, List.length_drop]
  omega

theorem getD_cons_removeNth_perm (l : List Char) (j : Nat) (d : Char) (h : j < l.length) :
    List.Perm (l.getD j d :: removeNth l j) l := by
  have h1 : l.take j ++ l.getD j d :: l.drop (j + 1) = l := by
    rw [List.getD_eq_getElem l d h, List.getElem_cons_drop, List.take_append_drop]
  unfold removeNth
  have h2 : List.Perm (l.getD j d :: (l.take j ++ l.drop (j + 1)))
      (l.take j ++ l.getD j d :: l.drop (j + 1)) := List.perm_middle.symm
  rw [h1] at h2
  exact h2

theorem fisherYatesAux_perm :
    ∀ (f : Nat) (rs : RandomStream) (l : List Char), l.length ≤ f →
      List.Perm (fisherYatesAux f rs l).1 l := by
  intro f
  induction f with
  | zero =>
    intro rs l h
    have : l = [] := List.length_eq_zero.mp (Nat.le_zero.mp h)
    subst this
    simp [fisherYatesAux]
  | succ f ih =>
    intro rs l h
    match l with
    | [] => simp [fisherYatesAux]
    | c :: cs =>
      simp only [fisherYatesAux]
      have hlt : (rs.uniformIndex (cs.length + 1)).1 < (c :: cs).length := by
        simpa using uniformIndex_fst_lt rs (cs.length + 1) (Nat.succ_pos _)
      have hrest : (removeNth (c :: cs) (rs.uniformIndex (cs.length + 1)).1).length ≤ f := by
        rw [removeNth_length _ _ hlt]
        simp only [List.length_cons] at h ⊢
        omega
      have hih := ih (rs.uniformIndex (cs.length + 1)).2
        (removeNth (c :: cs) (rs.uniformIndex (cs.length + 1)).1) hrest
      exact (hih.cons _).trans (getD_cons_removeNth_perm _ _ _ hlt)

theorem fisherYates_perm (rs : RandomStream) (l : List Char) :
    List.Perm (fisherYates rs l).1 l :=
  fisherYatesAux_perm l.length rs l (Nat.le_refl _)

theorem sampleAll_length (model : List (Char × Nat)) :
    ∀ (rs : RandomStream) (l : List Char), (sampleAll model rs l).1.length = l.length := by
  intro rs l
  induction l generalizing rs with
  | nil => simp [sampleAll]
  | cons c cs ih => simp [sampleAll, ih]

theorem pickWeighted_mem :
    ∀ (m : List (Char × Nat)) (k : Nat) (x : Char), pickWeighted m k = some x →
      x ∈ m.map Prod.fst := by
  intro m
  induction m with
  | nil => intro k x h; simp [pickWeighted] at h
  | cons p rest ih =>
    intro k x h
    simp only [pickWeighted] at h
    by_cases hk : k < p.2
    · rw [if_pos hk] at h
      cases h
      simp
    · rw [if_neg hk] at h
      simpa using Or.inr (ih _ _ h)

theorem sampleAll_mem (model : List (Char × Nat)) :
    ∀ (rs : RandomStream) (l : List Char) (x : Char), x ∈ (sampleAll model rs l).1 →
      x ∈ model.map Prod.fst ∨ x ∈ l := by
  intro rs l
  induction l generalizing rs with
  | nil => intro x h; simp [sampleAll] at h
  | cons c cs ih =>
    intro x h
    simp only [sampleAll, List.mem_cons] at h
    rcases h with h | h
    · rcases hp : pickWeighted model (rs.uniformIndex (totalWeight model)).1 with _ | y
      · rw [hp] at h
        simp at h
        subst h
        exact Or.inr (List.mem_cons_self _ _)
      · rw [hp] at h
        simp at h
        subst h
        exact Or.inl (pickWeighted_mem _ _ _ hp)
    · rcases ih _ _ h with h' | h'
      · exact Or.inl h'
      · exact Or.inr (List.mem_cons_of_mem _ h')

theorem shuffleOutside_length (cfg : Config) (model : List (Char × Nat))
    (rs : RandomStream) (l : List Char) :
    (shuffleOutside cfg model rs l).length = l.length := by
  unfold shuffleOutside
  by_cases h : cfg.inferFrequency
  · simp [h, sampleAll_length]
  · simp [h, (fisherYates_perm rs l).length_eq]

theorem shuffleOutside_perm (cfg : Config) (model : List (Char × Nat))
    (rs : RandomStream) (l : List Char) (h : cfg.inferFrequency = false) :
    List.Perm (shuffleOutside cfg model rs l) l := by
  unfold shuffleOutside
  rw [h]
  simpa using fisherYates_perm rs l

theorem shuffleOutside_mem (cfg : Config) (model : List (Char × Nat))
    (rs : RandomStream) (l : List Char) (x : Char)
    (h : x ∈ shuffleOutside cfg model rs l) : x ∈ model.map Prod.fst ∨ x ∈ l := by
  unfold shuffleOutside at h
  by_cases hf : cfg.inferFrequency
  · rw [if_pos hf] at h
    exact sampleAll_mem model rs l x h
  · rw [if_neg hf] at h
    exact Or.inr ((fisherYates_perm rs l).mem_iff.mp h)

theorem outside_window_perm (src : List Char) (s w : Nat) :
    List.Perm ((src.take s ++ src.drop (s + w)) ++ (src.drop s).take w) src := by
  have h2 : (src.drop s).drop w = src.drop (s + w) := by
    rw [List.drop_drop, Nat.add_comm]
  have h1 : src.take s ++ ((src.drop s).take w ++ src.drop (s + w)) = src := by
    rw [← h2, List.take_append_drop, List.take_append_drop]
  have h4 : List.Perm (src.take s ++ (src.drop (s + w) ++ (src.drop s).take w))
      (src.take s ++ ((src.drop s).take w ++ src.drop (s + w))) :=
    List.Perm.append_left _ List.perm_append_comm
  rw [h1] at h4
  rw [List.append_assoc]
  exact h4

theorem assemble_perm (sh win : List Char) (s : Nat) :
    List.Perm (sh.take s ++ win ++ sh.drop s) (sh ++ win) := by
  have h : List.Perm (sh.take s ++ (win ++ sh.drop s))
      (sh.take s ++ (sh.drop s ++ win)) :=
    List.Perm.append_left _ List.perm_append_comm
  have he : sh.take s ++ (sh.drop s ++ win) = sh ++ win := by
    rw [← List.append_assoc, List.take_append_drop]
  rw [he] at h
  rw [List.append_assoc]
  exact h

theorem produceAt_length (src : List Char) (model : List (Char × Nat))
    (rs1 : RandomStream) (cfg : Config) (s w : Nat) :
    (produceAt src model rs1 cfg s w).length = src.length := by
  unfold produceAt
  have hsh := shuffleOutside_length cfg model rs1 (src.take s ++ src.drop (s + w))
  have hperm := (outside_window_perm src s w).length_eq
  simp only [List.length_append, List.length_take, List.length_drop] at *
  omega

theorem produce_length (src : List Char) (model : List (Char × Nat))
    (rs : RandomStream) (cfg : Config) :
    (produce src model rs cfg).length = src.length := by
  unfold produce
  exact produceAt_length _ _ _ _ _ _

theorem produceAt_perm (src : List Char) (model : List (Char × Nat))
    (rs1 : RandomStream) (cfg : Config) (s w : Nat) (h : cfg.inferFrequency = false) :
    List.Perm (produceAt src model rs1 cfg s w) src := by
  unfold produceAt
  refine (assemble_perm _ _ _).trans ?_
  refine (List.Perm.append_right _ (shuffleOutside_perm cfg model rs1 _ h)).trans ?_
  exact outside_window_perm src s w

theorem produce_perm (src : List Char) (model : List (Char × Nat))
    (rs : RandomStream) (cfg : Config) (h : cfg.inferFrequency = false) :
    List.Perm (produce src model rs cfg) src := by
  unfold produce
  exact produceAt_perm _ _ _ _ _ _ h

theorem produceAt_mem (src : List Char) (model : List (Char × Nat))
    (rs1 : RandomStream) (cfg : Config) (s w : Nat) (x : Char)
    (h : x ∈ produceAt src model rs1 cfg s w) :
    x ∈ src ∨ x ∈ model.map Prod.fst := by
  unfold produceAt at h
  have h' := (assemble_perm _ _ _).mem_iff.mp h
  rw [List.mem_append] at h'
  rcases h' with h' | h'
  · rcases shuffleOutside_mem cfg model rs1 _ x h' with hm | hm
    · exact Or.inr hm
    · rw [List.mem_append] at hm
      rcases hm with hm | hm
      · exact Or.inl (List.take_subset _ _ hm)
      · exact Or.inl (List.drop_subset _ _ hm)
  · exact Or.inl (List.drop_subset _ _ (List.take_subset _ _ h'))

theorem produce_mem (src : List Char) (model : List (Char × Nat))
    (rs : RandomStream) (cfg : Config) (x : Char) (h : x ∈ produce src model rs cfg) :
    x ∈ src ∨ x ∈ model.map Prod.fst := by
  unfold produce at h
  exact produceAt_mem _ _ _ _ _ _ _ h

theorem normalizeIL_length (s : List Char) : (normalizeIL s).length = s.length := by
  simp [normalizeIL]

theorem not_mem_I_normalizeIL (s : List Char) : 'I' ∉ normalizeIL s := by
  intro h
  rw [normalizeIL, List.mem_map] at h
  rcases h with ⟨c, _, hc⟩
  by_cases hci : c = 'I'
  · rw [if_pos hci] at hc
    exact absurd hc (by decide)
  · rw [if_neg hci] at hc
    exact hci hc

theorem workingCopy_length (cfg : Config) (s : List Char) :
    (workingCopy cfg s).length = s.length := by
  unfold workingCopy
  by_cases h : cfg.replaceI
  · simp [h, normalizeIL_length]
  · simp [h]

theorem not_mem_I_workingCopy (cfg : Config) (s : List Char) (h : cfg.replaceI = true) :
    'I' ∉ workingCopy cfg s := by
  unfold workingCopy
  rw [h]
  simpa using not_mem_I_normalizeIL s

theorem mem_keys_buildGlobal (chars : List Char) (x : Char)
    (h : x ∈ (buildGlobal chars).map Prod.fst) : x ∈ chars := by
  unfold buildGlobal at h
  rw [List.map_map] at h
  have hc : (Prod.fst ∘ fun c => (c, chars.count c)) = id := rfl
  rw [hc, List.map_id] at h
  exact List.mem_dedup.mp h

theorem rcpp_ok_inv (env : CallEnv) (b : Bool) (h : rcpp_mimic_fasta env = Except.ok b) :
    b = true ∧ env.engine = EngineOutcome.ret 0 ∧ env.outputNonEmpty = true ∧
      env.parseOptionsOk = true := by
  rcases env with ⟨po, eng, one, op⟩
  unfold rcpp_mimic_fasta tryBlock at h
  cases po with
  | false => simp at h
  | true =>
    cases eng with
    | ret c =>
      simp only at h
      by_cases hc : c = 0
      · subst hc
        cases one with
        | false => simp at h
        | true =>
          simp at h
          simp [h]
      · rw [if_neg hc] at h
        simp at h
    | throwStd m => simp at h
    | throwUnknown => simp at h

/-! ## Orchestrator-level lemmas -/

theorem runFull_all_filtered (cfg : Config) (content : String) (entropy : Nat)
    (recs : List ProteinRecord) (hparse : parseFasta content = Except.ok recs)
    (hdrop : ∀ r ∈ recs, r.sequence.length < cfg.minLength) :
    runFull cfg content entropy = Except.ok "" := by
  have hfil : retainedOf cfg recs = [] := by
    unfold retainedOf
    rw [List.filter_eq_nil_iff]
    intro r hr
    simp only [decide_eq_true_eq]
    have := hdrop r hr
    omega
  have hrun : runEngine cfg recs entropy = [] := by
    unfold runEngine
    rw [hfil]
    rfl
  unfold runFull
  rw [hparse]
  show Except.ok (serializeFasta (runEngine cfg recs entropy)) = Except.ok ""
  rw [hrun]
  rfl

/-! ## Claims -/

/-- Claim C1 is refuted on the wrapper code: when the minLength filter
drops every record the engine run itself returns 0 with an empty output
file, and `rcpp_mimic_fasta` (lines 81–88 of `src/rcpp_exports.cpp`) then
raises an error rather than reporting success.  Concretely: one record of
length 3 against `min_len = 10`. -/
theorem claim_C1_counterexample :
    callWithEngine ⟨10, 1, false, 1, "mimic|Random", 0, false, true, false⟩
      ">P1 d\nMKV\n" 0 "out.fasta" ≠ Except.ok true := by decide

/-- Claim C1 (amended): when every parsed record is dropped by the
minLength filter, the engine's own run succeeds with an empty output file,
but `rcpp_mimic_fasta` then raises the missing-or-empty-output error
(lines 81–88 of `src/rcpp_exports.cpp`) instead of reporting success. -/
theorem claim_C1_amended (cfg : Config) (content : String) (entropy : Nat)
    (outPath : String) (recs : List ProteinRecord)
    (hparse : parseFasta content = Except.ok recs)
    (hdrop : ∀ r ∈ recs, r.sequence.length < cfg.minLength) :
    callWithEngine cfg content entropy outPath =
      Except.error ("Exception in rcpp_mimic_fasta: " ++
        ("Peptide generation reported success, but output file is missing or empty: "
          ++ outPath)) := by
  have hrun := runFull_all_filtered cfg content entropy recs hparse hdrop
  unfold callWithEngine engineOutcomeOf outputNonEmptyOf
  rw [hrun]
  rfl

/-- Witness for the amended claim C1 at a concrete input. -/
theorem claim_C1_witness :
    callWithEngine ⟨10, 1, false, 1, "mimic|Random", 0, false, true, false⟩
      ">P1 d\nMKV\n" 0 "o2.fasta" =
      Except.error ("Exception in rcpp_mimic_fasta: " ++
        ("Peptide generation reported success, but output file is missing or empty: "
          ++ "o2.fasta")) :=
  claim_C1_amended _ _ _ _ [⟨"P1", "d", ['M', 'K', 'V']⟩] (by decide) (by decide)

/-- Claim C2 is refuted on the wrapper code: two successful runs that
write different numbers of records surface the identical value (a bare
logical TRUE), so the surfaced value carries neither `recordsWritten` nor
a diagnostic — it is not the spec's `RunResult`. -/
theorem claim_C2_counterexample :
    recordsWrittenModel ⟨0, 1, false, 1, "mimic|Random", 0, false, true, false⟩
        ">A x\nMK\n" 0 = 1 ∧
      recordsWrittenModel ⟨0, 1, false, 1, "mimic|Random", 0, false, true, false⟩
        ">A x\nMK\n>B y\nMKV\n" 0 = 2 ∧
      callWithEngine ⟨0, 1, false, 1, "mimic|Random", 0, false, true, false⟩
          ">A x\nMK\n" 0 "o.fasta" =
        callWithEngine ⟨0, 1, false, 1, "mimic|Random", 0, false, true, false⟩
          ">A x\nMK\n>B y\nMKV\n" 0 "o.fasta" :=
  ⟨by decide, by decide, by decide⟩

/-- Claim C2 (amended): on success `rcpp_mimic_fasta` surfaces only the
constant boolean TRUE — the value is the same for every successful run,
carrying no record count and no diagnostic; diagnostics appear only in
error messages of failed runs. -/
theorem claim_C2_amended (env env2 : CallEnv) (b b2 : Bool)
    (h : rcpp_mimic_fasta env = Except.ok b)
    (h2 : rcpp_mimic_fasta env2 = Except.ok b2) : b = b2 := by
  rw [(rcpp_ok_inv env b h).1, (rcpp_ok_inv env2 b2 h2).1]

/-- Witness for the amended claim C2 at concrete inputs. -/
theorem claim_C2_witness :
    rcpp_mimic_fasta (CallEnv.mk true (EngineOutcome.ret 0) true "a") = Except.ok true ∧
      rcpp_mimic_fasta (CallEnv.mk true (EngineOutcome.ret 0) true "b") = Except.ok true ∧
      (true : Bool) = true :=
  ⟨rfl, rfl, claim_C2_amended (CallEnv.mk true (EngineOutcome.ret 0) true "a")
    (CallEnv.mk true (EngineOutcome.ret 0) true "b") true true rfl rfl⟩

/-- Claim C3: whenever the engine's run fails — a nonzero result code or a
thrown exception — `rcpp_mimic_fasta` surfaces exactly one failure message
carrying that first error's diagnostic (the result code, or the
exception's text), and never a success value; the engine is consulted
exactly once, so no retry occurs. -/
theorem claim_C3 (env : CallEnv) (hp : env.parseOptionsOk = true)
    (hf : engineFailed env.engine) :
    rcpp_mimic_fasta env = Except.error (failureMessage env.engine) := by
  rcases env with ⟨po, eng, one, op⟩
  simp only at hp
  subst hp
  cases eng with
  | ret c =>
    have hc : c ≠ 0 := hf
    unfold rcpp_mimic_fasta tryBlock failureMessage
    simp [hc]
  | throwStd m => rfl
  | throwUnknown => rfl

/-- Witness for claim C3 at a concrete failing run. -/
theorem claim_C3_witness :
    (CallEnv.mk true (EngineOutcome.ret 2) false "p").parseOptionsOk = true ∧
      rcpp_mimic_fasta (CallEnv.mk true (EngineOutcome.ret 2) false "p") =
        Except.error (failureMessage (EngineOutcome.ret 2)) :=
  ⟨rfl, claim_C3 _ rfl (show (2 : Int) ≠ 0 by decide)⟩

/-- Claim C5: with a nonzero seed the whole modelled pipeline is a
function of the input file contents and the `Configuration` alone — the
entropy source is never consulted, so two runs produce byte-identical
output files. -/
theorem claim_C5 (cfg : Config) (content : String) (e1 e2 : Nat)
    (h : cfg.seed ≠ 0) :
    runFull cfg content e1 = runFull cfg content e2 := by
  have hs : ∀ e, effectiveSeed cfg e = cfg.seed := fun e => if_neg h
  simp only [runFull, runEngine, hs]

/-- Witness for claim C5 at a concrete input and two entropy draws. -/
theorem claim_C5_witness :
    (Config.mk 0 1 false 7 "mimic|Random" 0 false true false).seed ≠ 0 ∧
      runFull (Config.mk 0 1 false 7 "mimic|Random" 0 false true false) ">P d\nMK\n" 5 =
        runFull (Config.mk 0 1 false 7 "mimic|Random" 0 false true false) ">P d\nMK\n" 99 :=
  ⟨by decide, claim_C5 _ _ _ _ (by decide)⟩

/-- Claim C8: whenever the engine throws — a `std::exception` or anything
else — the catch handlers of lines 94–98 of `src/rcpp_exports.cpp` convert
it into a reported error result; no exception escapes as a crash. -/
theorem claim_C8 (env : CallEnv)
    (h : (∃ m, env.engine = EngineOutcome.throwStd m) ∨
      env.engine = EngineOutcome.throwUnknown) :
    ∃ msg, rcpp_mimic_fasta env = Except.error msg := by
  rcases env with ⟨po, eng, one, op⟩
  cases po with
  | false => exact ⟨_, rfl⟩
  | true =>
    rcases h with ⟨m, hm⟩ | hm
    · simp only at hm
      subst hm
      exact ⟨_, rfl⟩
    · simp only at hm
      subst hm
      exact ⟨_, rfl⟩

/-- Witness for claim C8 at a concrete throwing engine. -/
theorem claim_C8_witness :
    (CallEnv.mk true (EngineOutcome.throwStd "boom") false "p").engine =
        EngineOutcome.throwStd "boom" ∧
      ∃ msg, rcpp_mimic_fasta (CallEnv.mk true (EngineOutcome.throwStd "boom") false "p") =
        Except.error msg :=
  ⟨rfl, claim_C8 _ (Or.inl ⟨"boom", rfl⟩)⟩

/-- Claim C9: a call of `rcpp_mimic_fasta` that returns at all returns the
logical TRUE, and then the engine's run returned 0 and the output file is
present and non-empty; in particular the trailing `return false` of line
99 of `src/rcpp_exports.cpp` is unreachable, every other outcome being an
error raised through `Rcpp::stop`. -/
theorem claim_C9 (env : CallEnv) (b : Bool)
    (h : rcpp_mimic_fasta env = Except.ok b) :
    b = true ∧ env.engine = EngineOutcome.ret 0 ∧ env.outputNonEmpty = true :=
  ⟨(rcpp_ok_inv env b h).1, (rcpp_ok_inv env b h).2.1, (rcpp_ok_inv env b h).2.2.1⟩

/-- Witness for claim C9 at a concrete successful call. -/
theorem claim_C9_witness :
    rcpp_mimic_fasta (CallEnv.mk true (EngineOutcome.ret 0) true "p") = Except.ok true ∧
      ((true : Bool) = true ∧
        (CallEnv.mk true (EngineOutcome.ret 0) true "p").engine = EngineOutcome.ret 0 ∧
        (CallEnv.mk true (EngineOutcome.ret 0) true "p").outputNonEmpty = true) :=
  ⟨rfl, claim_C9 _ true rfl⟩

/-- Claim C10: a call with only the two paths builds exactly the argument
vector of an explicit call with `min_len = 0`, `num_shuffles = 1`,
`replace_i = false`, `seed = 0`, prefix `mimic|Random`,
`shared_peptide_ratio = 0.0`, `prepend_original = false`,
`infer_aa_frequency = true`, `verbose = false` — the defaulted parameters
of `src/rcpp_exports.cpp` lines 13–25. -/
theorem claim_C10 (input output : String) :
    buildArgs input output =
      buildArgs input output 0 1 false 0 "mimic|Random" 0.0 false true false := rfl

/-- Claim C4: every generated mimic record has a sequence of exactly the
same length as its source record's sequence, for every configuration,
composition model, derived stream (any seed, record index and shuffle
index) and record. -/
theorem claim_C4 (cfg : Config) (model : List (Char × Nat)) (gseed idx k : Nat)
    (r : ProteinRecord) :
    (mimicOf cfg model gseed idx k r).sequence.length = r.sequence.length := by
  show (produce (workingCopy cfg r.sequence) model (deriveStream gseed idx k) cfg).length
    = r.sequence.length
  rw [produce_length, workingCopy_length]

/-- Claim C6 is refuted as stated: with `replaceI` enabled the working
copy replaces isoleucine by leucine before shuffling, so the mimic of the
retained record `P` with sequence `I` (under `inferFrequency = false`,
one shuffle) is `L`, which is not a permutation of the source sequence
`I`; the full run output shows it. -/
theorem claim_C6_counterexample :
    runEngine ⟨0, 1, true, 1, "mimic|Random", 0, false, false, false⟩
        [⟨"P", "", ['I']⟩] 0 = [⟨"mimic|Random|0_0_P", "", ['L']⟩] ∧
      ¬ List.Perm ['L'] ['I'] :=
  ⟨by decide, by decide⟩

/-- Claim C6 (amended): when `inferFrequency` is false every generated
mimic is an exact permutation (equal multiset of symbols) of the
I/L-normalized working copy of its source sequence; when `replaceI` is
also false the working copy is the source itself, giving the claim as
originally stated. -/
theorem claim_C6_amended (cfg : Config) (model : List (Char × Nat)) (gseed idx k : Nat)
    (r : ProteinRecord) (h : cfg.inferFrequency = false) :
    List.Perm (mimicOf cfg model gseed idx k r).sequence (workingCopy cfg r.sequence) ∧
      (cfg.replaceI = false →
        List.Perm (mimicOf cfg model gseed idx k r).sequence r.sequence) := by
  have h1 : List.Perm (mimicOf cfg model gseed idx k r).sequence
      (workingCopy cfg r.sequence) := by
    show List.Perm (produce (workingCopy cfg r.sequence) model (deriveStream gseed idx k) cfg)
      (workingCopy cfg r.sequence)
    exact produce_perm _ _ _ _ h
  refine ⟨h1, fun hr => ?_⟩
  have hw : workingCopy cfg r.sequence = r.sequence := by
    unfold workingCopy
    rw [hr]
    simp
  rw [hw] at h1
  exact h1

/-- Witness for the amended claim C6 at a concrete exact-mode run. -/
theorem claim_C6_witness :
    List.Perm (mimicOf ⟨0, 1, true, 1, "mimic|Random", 0, false, false, false⟩ []
        1 0 0 ⟨"P", "", ['I']⟩).sequence
      (workingCopy ⟨0, 1, true, 1, "mimic|Random", 0, false, false, false⟩ ['I']) ∧
      ((⟨0, 1, true, 1, "mimic|Random", 0, false, false, false⟩ : Config).replaceI = false →
        List.Perm (mimicOf ⟨0, 1, true, 1, "mimic|Random", 0, false, false, false⟩ []
          1 0 0 ⟨"P", "", ['I']⟩).sequence ['I']) :=
  claim_C6_amended ⟨0, 1, true, 1, "mimic|Random", 0, false, false, false⟩ [] 1 0 0
    ⟨"P", "", ['I']⟩ rfl

/-- Claim C7: with `replaceI` enabled no record of the run's output —
prepended original or mimic — contains the isoleucine symbol: originals
are emitted from the I/L-normalized working copy, permutation shuffles
only rearrange it, and sampled draws come from a composition model built
over the normalized working copies. -/
theorem claim_C7 (cfg : Config) (records : List ProteinRecord) (entropy : Nat)
    (h : cfg.replaceI = true) :
    ∀ rec, rec ∈ runEngine cfg records entropy → 'I' ∉ rec.sequence := by
  intro rec hrec hImem
  unfold runEngine at hrec
  rw [List.mem_flatten] at hrec
  rcases hrec with ⟨L, hL, hrecL⟩
  rw [List.mem_map] at hL
  rcases hL with ⟨p, hp, rfl⟩
  unfold recordsFor at hrecL
  rw [List.mem_append] at hrecL
  rcases hrecL with hrecL | hrecL
  · by_cases hpre : cfg.prependOriginal
    · rw [if_pos hpre] at hrecL
      rw [List.mem_singleton] at hrecL
      subst hrecL
      exact not_mem_I_workingCopy cfg p.2.sequence h hImem
    · rw [if_neg hpre] at hrecL
      exact absurd hrecL (List.not_mem_nil rec)
  · rw [List.mem_map] at hrecL
    rcases hrecL with ⟨k, hk, rfl⟩
    have hmem : 'I' ∈ produce (workingCopy cfg p.2.sequence) (modelOf cfg records)
        (deriveStream (effectiveSeed cfg entropy) p.1 k) cfg := hImem
    rcases produce_mem _ _ _ _ _ hmem with hsrc | hkeys
    · exact not_mem_I_workingCopy cfg p.2.sequence h hsrc
    · have hj : 'I' ∈ List.flatten ((retainedOf cfg records).map
          (fun r => workingCopy cfg r.sequence)) :=
        mem_keys_buildGlobal _ _ hkeys
      rw [List.mem_flatten] at hj
      rcases hj with ⟨l, hl, hIl⟩
      rw [List.mem_map] at hl
      rcases hl with ⟨r2, _, rfl⟩
      exact not_mem_I_workingCopy cfg r2.sequence h hIl

/-- Witness for claim C7 at a concrete run with `replaceI` enabled. -/
theorem claim_C7_witness :
    'I' ∉ ((runEngine ⟨0, 1, true, 1, "mimic|Random", 0, true, true, false⟩
      [⟨"P", "", ['M', 'I', 'K']⟩] 0).getD 0 ⟨"", "", []⟩).sequence :=
  claim_C7 ⟨0, 1, true, 1, "mimic|Random", 0, true, true, false⟩
    [⟨"P", "", ['M', 'I', 'K']⟩] 0 rfl _ (by decide)
